import Mathlib

/-!
Shallow embedding of the walrus-leafsii stable-protocol pseudocode
(`docs/pseudocode_stable.py` and `docs/rebalance_pool.py`) over ℚ.

Python floats are modelled as exact rationals.  Python exceptions are
modelled by `Except Err`; because a Python `raise` does not roll back
global or object mutations already performed, every operation returns the
state as mutated up to the point of the raise together with the
`Except` outcome.  A Python `ZeroDivisionError` is modelled by an explicit
zero-test on the divisor at the place where the source divides.
-/

namespace Walrus

/-- Exceptions raised by the source (one constructor per raise site). -/
inductive Err where
  | badAmount
  | oracleStale
  | oracleStep
  | insufficientReserve
  | insufficientSPBalance
  | insufficientClaimReserve
  | oracleNotSet
  | badTarget
  | divisionByZero
deriving DecidableEq, Repr

/-- CR_T_L1 = 1.306 (stability mode threshold). -/
def CR_T_L1 : ℚ := 1306 / 1000

/-- CR_T_L2 = 1.206. -/
def CR_T_L2 : ℚ := 1206 / 1000

/-- CR_T_L3 = 1.144. -/
def CR_T_L3 : ℚ := 1144 / 1000

/-- CR_T_L4 = 1.050. -/
def CR_T_L4 : ℚ := 1050 / 1000

/-- PF_FIXED = 1.0 (liability NAV, stability coefficient 0). -/
def PF_FIXED : ℚ := 1

/-- MAX_STALENESS_SEC = 3600. -/
def MAX_STALENESS_SEC : ℤ := 3600

/-- MAX_REL_STEP = 0.20. -/
def MAX_REL_STEP : ℚ := 20 / 100

/-- MAX_F_BURN_FRACTION_PER_CALL = 0.50 (core-side constant, unused in the code paths). -/
def MAX_F_BURN_FRACTION_PER_CALL : ℚ := 50 / 100

/-- EPS = 1e-12. -/
def EPS : ℚ := 1 / 1000000000000

/-- HARVEST_BOUNTY_BPS = 100. -/
def HARVEST_BOUNTY_BPS : ℚ := 100

/-- BPS = 10_000. -/
def BPS : ℚ := 10000

/-- SP_MAX_BURN_FRAC_CALL = 0.50. -/
def SP_MAX_BURN_FRAC_CALL : ℚ := 50 / 100

/-- Per-user Stability Pool record (`class SPUser`). -/
structure SPUser where
  ftoken_balance : ℚ
  sp_scaled : ℚ
  sp_index_snap : ℚ
deriving DecidableEq, Repr

/-- The module-level mutable globals of both source files, gathered in one record. -/
structure State where
  Nf : ℚ
  Nx : ℚ
  Pf : ℚ
  Px : ℚ
  p_sui : ℚ
  last_oracle_ts : ℤ
  reserve_sui : ℚ
  sp_scale : ℚ
  sp_scaled_total : ℚ
  sp_index_sui_scaled : ℚ
  sp_obligation_sui : ℚ
deriving DecidableEq, Repr

/-- Initial values of the globals as written at module load time. -/
def initState : State :=
  { Nf := 0, Nx := 0, Pf := PF_FIXED, Px := 0, p_sui := 0, last_oracle_ts := 0,
    reserve_sui := 0, sp_scale := 1, sp_scaled_total := 0,
    sp_index_sui_scaled := 0, sp_obligation_sui := 0 }

/-- A fresh `SPUser()`. -/
def initUser : SPUser := { ftoken_balance := 0, sp_scaled := 0, sp_index_snap := 0 }

/-- `reserve_usd()`. -/
def reserve_usd (s : State) : ℚ := s.reserve_sui * s.p_sui

/-- `reserve_net_sui()`. -/
def reserve_net_sui (s : State) : ℚ := max 0 (s.reserve_sui - s.sp_obligation_sui)

/-- `reserve_net_usd()`. -/
def reserve_net_usd (s : State) : ℚ := reserve_net_sui s * s.p_sui

/-- `collateral_ratio()`. -/
def collateralRatio (s : State) : ℚ := reserve_net_usd s / max EPS (s.Nf * s.Pf)

/-- `_update_px()`: recompute the implied equity NAV (no-op while `Nx ≤ EPS`). -/
def update_px (s : State) : State :=
  if s.Nx ≤ EPS then s
  else { s with Px := max 0 ((reserve_usd s - s.Nf * s.Pf) / max EPS s.Nx) }

/-- `current_level()`. -/
def current_level (s : State) : ℕ :=
  if CR_T_L1 ≤ collateralRatio s then 1
  else if CR_T_L2 ≤ collateralRatio s then 2
  else if CR_T_L3 ≤ collateralRatio s then 3
  else if CR_T_L4 ≤ collateralRatio s then 4
  else 5

/-- `update_from_oracle(p_new, now_ts)`. -/
def update_from_oracle (s : State) (p_new : ℚ) (now_ts : ℤ) : State × Except Err Unit :=
  if s.last_oracle_ts ≠ 0 ∧ now_ts - s.last_oracle_ts > MAX_STALENESS_SEC then
    (s, Except.error Err.oracleStale)
  else if s.last_oracle_ts ≠ 0 ∧ |p_new / max EPS s.p_sui - 1| > MAX_REL_STEP then
    (s, Except.error Err.oracleStep)
  else
    (update_px { s with p_sui := p_new, last_oracle_ts := now_ts, Pf := PF_FIXED },
     Except.ok ())

/-- `mint_ftoken(deposit_sui)`.  The reserve is credited before the division by
`Pf`, so a `Pf = 0` `ZeroDivisionError` leaves the reserve already increased. -/
def mint_ftoken (s : State) (deposit_sui : ℚ) : State × Except Err ℚ :=
  if deposit_sui ≤ 0 then (s, Except.error Err.badAmount)
  else
    let s1 : State := { s with reserve_sui := s.reserve_sui + deposit_sui }
    if s1.Pf = 0 then (s1, Except.error Err.divisionByZero)
    else
      let issued_f := deposit_sui * s1.p_sui / s1.Pf
      (update_px { s1 with Nf := s1.Nf + issued_f }, Except.ok issued_f)

/-- `redeem_ftoken(burn_f)`. -/
def redeem_ftoken (s : State) (burn_f : ℚ) : State × Except Err ℚ :=
  if burn_f ≤ 0 ∨ burn_f > s.Nf then (s, Except.error Err.badAmount)
  else if s.p_sui = 0 then (s, Except.error Err.divisionByZero)
  else
    let sui_out := burn_f * s.Pf / s.p_sui
    if sui_out > reserve_net_sui s then (s, Except.error Err.insufficientReserve)
    else
      (update_px { s with reserve_sui := s.reserve_sui - sui_out, Nf := s.Nf - burn_f },
       Except.ok sui_out)

/-- `sp_total_f()`. -/
def sp_total_f (s : State) : ℚ := s.sp_scaled_total * s.sp_scale

/-- `sp_quote_burn_cap()`. -/
def sp_quote_burn_cap (s : State) : ℚ := SP_MAX_BURN_FRAC_CALL * sp_total_f s

/-- `sp_controller_rebalance(f_burn, payout_sui)`:
pro-rata burn via scale shrink plus obligation indexing. -/
def sp_controller_rebalance (s : State) (f_burn payout_sui : ℚ) : State × ℚ × ℚ :=
  let f_total_pre := sp_total_f s
  if f_total_pre ≤ EPS ∨ f_burn ≤ EPS then (s, 0, 0)
  else
    let allowed_burn := min f_burn (SP_MAX_BURN_FRAC_CALL * f_total_pre)
    if allowed_burn ≤ EPS then (s, 0, 0)
    else
      let sui_per_f := payout_sui / f_burn
      let allowed_payout := sui_per_f * allowed_burn
      if s.sp_scaled_total ≤ EPS then (s, 0, 0)
      else
        let delta := allowed_payout / s.sp_scaled_total
        let frac := allowed_burn / f_total_pre
        ({ s with
            sp_index_sui_scaled := s.sp_index_sui_scaled + delta,
            sp_obligation_sui := s.sp_obligation_sui + allowed_payout,
            sp_scale := s.sp_scale * max 0 (1 - frac) },
         allowed_burn, allowed_payout)

/-- `_settle_user(user)`: returns the settled user and the owed amount. -/
def settle_user (s : State) (u : SPUser) : SPUser × ℚ :=
  let owed := u.sp_scaled * (s.sp_index_sui_scaled - u.sp_index_snap)
  ({ u with sp_index_snap := s.sp_index_sui_scaled }, max 0 owed)

/-- `sp_deposit(user, f_amount)`. -/
def sp_deposit (s : State) (u : SPUser) (f_amount : ℚ) :
    State × SPUser × Except Err Unit :=
  if f_amount ≤ 0 ∨ u.ftoken_balance < f_amount then (s, u, Except.error Err.badAmount)
  else
    let u1 := (settle_user s u).1
    if s.sp_scale = 0 then (s, u1, Except.error Err.divisionByZero)
    else
      let scaled := f_amount / s.sp_scale
      ({ s with sp_scaled_total := s.sp_scaled_total + scaled },
       { u1 with ftoken_balance := u1.ftoken_balance - f_amount,
                 sp_scaled := u1.sp_scaled + scaled },
       Except.ok ())

/-- `sp_withdraw(user, f_amount)`.  The settlement of the user happens before the
balance check, so a failed withdraw still refreshes the index snapshot. -/
def sp_withdraw (s : State) (u : SPUser) (f_amount : ℚ) :
    State × SPUser × Except Err Unit :=
  if f_amount ≤ 0 then (s, u, Except.error Err.badAmount)
  else
    let u1 := (settle_user s u).1
    let available := u1.sp_scaled * s.sp_scale
    if f_amount > available + EPS then (s, u1, Except.error Err.insufficientSPBalance)
    else if s.sp_scale = 0 then (s, u1, Except.error Err.divisionByZero)
    else
      let scaled := f_amount / s.sp_scale
      ({ s with sp_scaled_total := s.sp_scaled_total - scaled },
       { u1 with sp_scaled := u1.sp_scaled - scaled,
                 ftoken_balance := u1.ftoken_balance + f_amount },
       Except.ok ())

/-- `sp_claim(user, core_pay_sui_cb)`, parameterized by the payment callback.
The callback receives the owed amount and the current state and returns the
state it produced together with success or failure; on failure the exception
propagates, keeping the snapshot mutation already made by `_settle_user`. -/
def sp_claim (cb : ℚ → State → State × Except Err Unit) (s : State) (u : SPUser) :
    State × SPUser × Except Err ℚ :=
  let settled := settle_user s u
  let u1 := settled.1
  let owed := settled.2
  if owed ≤ EPS then (s, u1, Except.ok 0)
  else
    match cb owed s with
    | (s1, Except.error e) => (s1, u1, Except.error e)
    | (s1, Except.ok _) =>
      let ob := s1.sp_obligation_sui - owed
      ({ s1 with sp_obligation_sui := if ob < 0 then 0 else ob }, u1, Except.ok owed)

/-- `sp_claim_pay_sui(amount_sui)`: the core-side payment callback. -/
def sp_claim_pay_sui (amount_sui : ℚ) (s : State) : State × Except Err Unit :=
  if amount_sui ≤ 0 then (s, Except.ok ())
  else if amount_sui > s.reserve_sui + EPS then
    (s, Except.error Err.insufficientClaimReserve)
  else ({ s with reserve_sui := s.reserve_sui - amount_sui }, Except.ok ())

/-- `sp_index_harvest(yield_sui)`: returns the new state and the bounty. -/
def sp_index_harvest (s : State) (yield_sui : ℚ) : State × ℚ :=
  if yield_sui ≤ EPS ∨ s.sp_scaled_total ≤ EPS then (s, 0)
  else
    let bounty := yield_sui * HARVEST_BOUNTY_BPS / BPS
    let to_pool := yield_sui - bounty
    let delta := to_pool / s.sp_scaled_total
    ({ s with sp_index_sui_scaled := s.sp_index_sui_scaled + delta,
              sp_obligation_sui := s.sp_obligation_sui + to_pool }, bounty)

/-- `_compute_f_burn_needed_for_target(target_cr)`. -/
def compute_f_burn_needed_for_target (s : State) (target_cr : ℚ) : Except Err ℚ :=
  if target_cr ≤ 0 then Except.error Err.badTarget
  else if target_cr * s.Pf = 0 then Except.error Err.divisionByZero
  else Except.ok (max 0 (s.Nf - reserve_net_sui s * s.p_sui / (target_cr * s.Pf)))

/-- `protocol_rebalance_L3_to_target(target_cr)`. -/
def protocol_rebalance_L3_to_target (s : State) (target_cr : ℚ) :
    State × Except Err (ℚ × ℚ) :=
  if s.p_sui ≤ EPS then (s, Except.error Err.oracleNotSet)
  else if s.Nf ≤ EPS then (s, Except.ok (0, 0))
  else
    match compute_f_burn_needed_for_target s target_cr with
    | Except.error e => (s, Except.error e)
    | Except.ok need =>
      if need ≤ EPS then (s, Except.ok (0, 0))
      else
        let cap_sp := sp_quote_burn_cap s
        let f_burn := max 0 (min need (min cap_sp s.Nf))
        if f_burn ≤ EPS then (s, Except.ok (0, 0))
        else
          let payout_sui := f_burn * s.Pf / s.p_sui
          let res := sp_controller_rebalance s f_burn payout_sui
          let s1 := res.1
          let burned := res.2.1
          let indexed_sui := res.2.2
          if burned ≤ EPS then (s1, Except.ok (0, 0))
          else
            (update_px { s1 with Nf := s1.Nf - burned },
             Except.ok (burned, indexed_sui))

/-- Whole-system state: the shared globals plus the user records held by the
external storage collaborator. -/
structure Sys where
  core : State
  users : List SPUser
deriving DecidableEq, Repr

/-- The public operations of the two modules.  User-facing pool operations name
their `SPUser` record by position in the store. -/
inductive Op where
  | update (p_new : ℚ) (now_ts : ℤ)
  | mint (deposit_sui : ℚ)
  | redeem (burn_f : ℚ)
  | deposit (i : ℕ) (f_amount : ℚ)
  | withdraw (i : ℕ) (f_amount : ℚ)
  | claim (i : ℕ)
  | rebalance (target_cr : ℚ)
  | harvest (yield_sui : ℚ)
deriving DecidableEq, Repr

/-- Whether an `Except` outcome is a normal return. -/
def isOkE {α : Type} : Except Err α → Bool
  | Except.ok _ => true
  | Except.error _ => false

/-- One public operation against the whole system.  The returned `Bool` is
`true` iff the operation returned normally; the returned system reflects every
mutation the operation performed before raising, matching Python semantics.
`claim` is wired to the core callback `sp_claim_pay_sui`, as in the source. -/
def stepOp (σ : Sys) : Op → Sys × Bool
  | Op.update p ts =>
    let r := update_from_oracle σ.core p ts
    ({ σ with core := r.1 }, isOkE r.2)
  | Op.mint d =>
    let r := mint_ftoken σ.core d
    ({ σ with core := r.1 }, isOkE r.2)
  | Op.redeem b =>
    let r := redeem_ftoken σ.core b
    ({ σ with core := r.1 }, isOkE r.2)
  | Op.deposit i a =>
    match σ.users[i]? with
    | none => (σ, false)
    | some u =>
      let r := sp_deposit σ.core u a
      ({ core := r.1, users := σ.users.set i r.2.1 }, isOkE r.2.2)
  | Op.withdraw i a =>
    match σ.users[i]? with
    | none => (σ, false)
    | some u =>
      let r := sp_withdraw σ.core u a
      ({ core := r.1, users := σ.users.set i r.2.1 }, isOkE r.2.2)
  | Op.claim i =>
    match σ.users[i]? with
    | none => (σ, false)
    | some u =>
      let r := sp_claim sp_claim_pay_sui σ.core u
      ({ core := r.1, users := σ.users.set i r.2.1 }, isOkE r.2.2)
  | Op.rebalance t =>
    let r := protocol_rebalance_L3_to_target σ.core t
    ({ σ with core := r.1 }, isOkE r.2)
  | Op.harvest y =>
    let r := sp_index_harvest σ.core y
    ({ σ with core := r.1 }, true)

/-- Run a sequence of operations, keeping the partial state of failed ones. -/
def runOps : Sys → List Op → Sys
  | σ, [] => σ
  | σ, op :: rest => runOps (stepOp σ op).1 rest

/-- Run a sequence of operations, aborting if any fails a precondition. -/
def runOk : Sys → List Op → Option Sys
  | σ, [] => some σ
  | σ, op :: rest =>
    let r := stepOp σ op
    if r.2 then runOk r.1 rest else none

/-- The fresh system: module-load globals and `k` fresh `SPUser()` records. -/
def initSys (k : ℕ) : Sys := { core := initState, users := List.replicate k initUser }

/-- The direct user operations (mint / redeem / deposit / withdraw / claim). -/
def isUserOp : Op → Bool
  | Op.mint _ => true
  | Op.redeem _ => true
  | Op.deposit _ _ => true
  | Op.withdraw _ _ => true
  | Op.claim _ => true
  | _ => false

/-- `check_invariant(tol)`: value conservation within tolerance. -/
def check_invariant (s : State) (tol : ℚ) : Prop :=
  |reserve_usd s - (s.Nf * s.Pf + s.Nx * s.Px)| ≤ tol

/-- `check_solvency()`: `reserve_sui + EPS >= sp_obligation_sui`. -/
def check_solvency (s : State) : Prop :=
  s.reserve_sui + EPS ≥ s.sp_obligation_sui

/-! ### Basic facts about the embedded definitions -/

theorem EPS_pos : (0 : ℚ) < EPS := by norm_num [EPS]

@[simp] theorem update_px_reserve (s : State) : (update_px s).reserve_sui = s.reserve_sui := by
  unfold update_px; split <;> rfl

@[simp] theorem update_px_Nf (s : State) : (update_px s).Nf = s.Nf := by
  unfold update_px; split <;> rfl

@[simp] theorem update_px_Nx (s : State) : (update_px s).Nx = s.Nx := by
  unfold update_px; split <;> rfl

@[simp] theorem update_px_Pf (s : State) : (update_px s).Pf = s.Pf := by
  unfold update_px; split <;> rfl

@[simp] theorem update_px_p_sui (s : State) : (update_px s).p_sui = s.p_sui := by
  unfold update_px; split <;> rfl

@[simp] theorem update_px_ts (s : State) : (update_px s).last_oracle_ts = s.last_oracle_ts := by
  unfold update_px; split <;> rfl

@[simp] theorem update_px_scale (s : State) : (update_px s).sp_scale = s.sp_scale := by
  unfold update_px; split <;> rfl

@[simp] theorem update_px_scaled_total (s : State) :
    (update_px s).sp_scaled_total = s.sp_scaled_total := by
  unfold update_px; split <;> rfl

@[simp] theorem update_px_index (s : State) :
    (update_px s).sp_index_sui_scaled = s.sp_index_sui_scaled := by
  unfold update_px; split <;> rfl

@[simp] theorem update_px_obligation (s : State) :
    (update_px s).sp_obligation_sui = s.sp_obligation_sui := by
  unfold update_px; split <;> rfl

theorem update_px_of_Nx_le (s : State) (h : s.Nx ≤ EPS) : update_px s = s := by
  unfold update_px; rw [if_pos h]

/-- Total free f-token balance of a list of user records. -/
def balSum : List SPUser → ℚ
  | [] => 0
  | u :: rest => u.ftoken_balance + balSum rest

theorem balSum_nonneg (l : List SPUser) (h : ∀ u ∈ l, 0 ≤ u.ftoken_balance) :
    0 ≤ balSum l := by
  induction l with
  | nil => simp [balSum]
  | cons u rest ih =>
    have h1 := h u (by simp)
    have h2 : 0 ≤ balSum rest := ih fun v hv => h v (by simp [hv])
    simp only [balSum]
    linarith

theorem balSum_set (l : List SPUser) (i : ℕ) (u u' : SPUser) (h : l[i]? = some u) :
    balSum (l.set i u') = balSum l - u.ftoken_balance + u'.ftoken_balance := by
  induction l generalizing i with
  | nil => simp at h
  | cons v rest ih =>
    cases i with
    | zero =>
      simp only [List.getElem?_cons_zero, Option.some.injEq] at h
      subst h
      simp only [List.set_cons_zero, balSum]
      ring
    | succ j =>
      simp only [List.getElem?_cons_succ] at h
      simp only [List.set_cons_succ, balSum, ih j h]
      ring

theorem mem_of_mem_set {l : List SPUser} {i : ℕ} {u' v : SPUser}
    (h : v ∈ l.set i u') : v ∈ l ∨ v = u' := by
  induction l generalizing i with
  | nil => simp at h
  | cons a rest ih =>
    cases i with
    | zero =>
      simp only [List.set_cons_zero, List.mem_cons] at h
      rcases h with h | h
      · exact Or.inr h
      · exact Or.inl (List.mem_cons_of_mem _ h)
    | succ j =>
      simp only [List.set_cons_succ, List.mem_cons] at h
      rcases h with h | h
      · exact Or.inl (h ▸ List.mem_cons_self _ _)
      · rcases ih h with h' | h'
        · exact Or.inl (List.mem_cons_of_mem _ h')
        · exact Or.inr h'

/-! ### C6 -/

/-- C6 (amended): with no outstanding liability value (`Nf * Pf ≤ EPS`) the tier
function evaluates through the epsilon-substituted denominator, and it returns 1
provided the net reserve value is at least `CR_T_L1 * EPS`; it is not 1
regardless of reserve, obligation and price (see the counterexample). -/
theorem tier_one_of_no_liability (s : State) (h1 : s.Nf * s.Pf ≤ EPS)
    (h2 : CR_T_L1 * EPS ≤ reserve_net_usd s) : current_level s = 1 := by
  have hmax : max EPS (s.Nf * s.Pf) = EPS := max_eq_left h1
  have hcr : CR_T_L1 ≤ collateralRatio s := by
    unfold collateralRatio
    rw [hmax, le_div_iff₀ EPS_pos]
    linarith
  unfold current_level
  rw [if_pos hcr]

/-- C6 (counterexample): a state with zero liability supply but zero net reserve
value (price never set) sits in tier 5, not tier 1. -/
theorem tier_cex :
    ({ initState with reserve_sui := 5 } : State).Nf = 0 ∧
    current_level { initState with reserve_sui := 5 } = 5 := by
  constructor
  · rfl
  · norm_num [current_level, collateralRatio, reserve_net_usd, reserve_net_sui,
      initState, EPS, CR_T_L1, CR_T_L2, CR_T_L3, CR_T_L4, PF_FIXED]

/-- C6 (witness): a concrete no-liability state with positive net reserve value. -/
theorem tier_one_of_no_liability_witness :
    current_level { initState with reserve_sui := 5, p_sui := 1 } = 1 :=
  tier_one_of_no_liability { initState with reserve_sui := 5, p_sui := 1 }
    (by norm_num [initState, EPS, PF_FIXED])
    (by norm_num [initState, reserve_net_usd, reserve_net_sui, EPS, CR_T_L1])

/-! ### C10 -/

/-- C10: with the oracle price still 0 (never set, so `Pf` is its fixed 1),
`mint` succeeds for any positive deposit: it credits the reserve by the
deposit, issues exactly 0 liability tokens, and leaves `Nf` unchanged. -/
theorem mint_at_zero_price (s : State) (d : ℚ) (hp : s.p_sui = 0) (hPf : s.Pf = 1)
    (hd : 0 < d) :
    (mint_ftoken s d).2 = Except.ok 0 ∧
    (mint_ftoken s d).1.reserve_sui = s.reserve_sui + d ∧
    (mint_ftoken s d).1.Nf = s.Nf := by
  have hnd : ¬ d ≤ 0 := not_le.mpr hd
  unfold mint_ftoken
  rw [if_neg hnd]
  simp [hPf, hp]

/-- C10 (witness): minting 7 at the fresh state. -/
theorem mint_at_zero_price_witness :
    (mint_ftoken initState 7).2 = Except.ok 0 ∧
    (mint_ftoken initState 7).1.reserve_sui = initState.reserve_sui + 7 ∧
    (mint_ftoken initState 7).1.Nf = initState.Nf :=
  mint_at_zero_price initState 7 rfl rfl (by norm_num)

/-! ### C9 -/

/-- C9: after the first-ever update (`last_oracle_ts ≠ 0`), an update whose
timestamp gap equals `MAX_STALENESS_SEC` exactly passes the staleness check and
succeeds (provided the relative-step check passes), a gap of
`MAX_STALENESS_SEC + 1` fails with the staleness error, and every rejected
update returns the state completely unchanged. -/
theorem oracle_staleness_boundary (s : State) (p : ℚ) (hts : s.last_oracle_ts ≠ 0)
    (hstep : |p / max EPS s.p_sui - 1| ≤ MAX_REL_STEP) :
    (update_from_oracle s p (s.last_oracle_ts + MAX_STALENESS_SEC)).2 = Except.ok () ∧
    update_from_oracle s p (s.last_oracle_ts + (MAX_STALENESS_SEC + 1)) =
      (s, Except.error Err.oracleStale) ∧
    (∀ q : ℚ, ∀ ts : ℤ, ∀ e : Err,
      (update_from_oracle s q ts).2 = Except.error e → (update_from_oracle s q ts).1 = s) := by
  refine ⟨?_, ?_, ?_⟩
  · have h1 : ¬ (s.last_oracle_ts ≠ 0 ∧
        s.last_oracle_ts + MAX_STALENESS_SEC - s.last_oracle_ts > MAX_STALENESS_SEC) := by
      intro h
      omega
    have h2 : ¬ (s.last_oracle_ts ≠ 0 ∧ |p / max EPS s.p_sui - 1| > MAX_REL_STEP) := by
      intro h
      exact absurd h.2 (not_lt.mpr hstep)
    unfold update_from_oracle
    rw [if_neg h1, if_neg h2]
  · have h1 : s.last_oracle_ts ≠ 0 ∧
        s.last_oracle_ts + (MAX_STALENESS_SEC + 1) - s.last_oracle_ts > MAX_STALENESS_SEC :=
      ⟨hts, by omega⟩
    unfold update_from_oracle
    rw [if_pos h1]
  · intro q ts e h
    unfold update_from_oracle at h ⊢
    split_ifs at h ⊢ with h1 h2
    · rfl
    · rfl

/-- C9 (witness): a concrete armed oracle state, same price resubmitted. -/
theorem oracle_staleness_boundary_witness :
    (update_from_oracle { initState with last_oracle_ts := 100, p_sui := 2 } 2
      (({ initState with last_oracle_ts := 100, p_sui := 2 } : State).last_oracle_ts +
        MAX_STALENESS_SEC)).2 = Except.ok () ∧
    update_from_oracle { initState with last_oracle_ts := 100, p_sui := 2 } 2
      (({ initState with last_oracle_ts := 100, p_sui := 2 } : State).last_oracle_ts +
        (MAX_STALENESS_SEC + 1)) =
      ({ initState with last_oracle_ts := 100, p_sui := 2 }, Except.error Err.oracleStale) :=
  ⟨(oracle_staleness_boundary { initState with last_oracle_ts := 100, p_sui := 2 } 2
      (by norm_num [initState]) (by norm_num [initState, EPS, MAX_REL_STEP])).1,
   (oracle_staleness_boundary { initState with last_oracle_ts := 100, p_sui := 2 } 2
      (by norm_num [initState]) (by norm_num [initState, EPS, MAX_REL_STEP])).2.1⟩

/-! ### C8 -/

/-- C8: for a valid pool state (`sp_scale > 0`) and a valid user record
(`sp_scaled ≥ 0`), a deposit of `0 < a ≤ free balance` immediately followed by a
withdraw of `a` (no intervening rebalance or harvest) succeeds, restores the
user's free f-token balance exactly, and restores `sp_scaled_total` exactly
(hence within any floating tolerance). -/
theorem deposit_withdraw_roundtrip (s : State) (u : SPUser) (a : ℚ)
    (hscale : 0 < s.sp_scale) (hsh : 0 ≤ u.sp_scaled) (ha : 0 < a)
    (hb : a ≤ u.ftoken_balance) :
    (sp_deposit s u a).2.2 = Except.ok () ∧
    (sp_withdraw (sp_deposit s u a).1 (sp_deposit s u a).2.1 a).2.2 = Except.ok () ∧
    (sp_withdraw (sp_deposit s u a).1 (sp_deposit s u a).2.1 a).2.1.ftoken_balance =
      u.ftoken_balance ∧
    (sp_withdraw (sp_deposit s u a).1 (sp_deposit s u a).2.1 a).1.sp_scaled_total =
      s.sp_scaled_total := by
  have hsne : s.sp_scale ≠ 0 := ne_of_gt hscale
  have hcond : ¬ (a ≤ 0 ∨ u.ftoken_balance < a) := by
    push_neg
    exact ⟨ha, hb⟩
  have hdep : sp_deposit s u a =
      ({ s with sp_scaled_total := s.sp_scaled_total + a / s.sp_scale },
       { ftoken_balance := u.ftoken_balance - a,
         sp_scaled := u.sp_scaled + a / s.sp_scale,
         sp_index_snap := s.sp_index_sui_scaled },
       Except.ok ()) := by
    unfold sp_deposit settle_user
    rw [if_neg hcond, if_neg hsne]
  have havail : ¬ a > (u.sp_scaled + a / s.sp_scale) * s.sp_scale + EPS := by
    rw [not_lt, add_mul, div_mul_cancel₀ _ hsne]
    have hnn : 0 ≤ u.sp_scaled * s.sp_scale := mul_nonneg hsh hscale.le
    linarith [EPS_pos]
  have hwd : sp_withdraw
      ({ s with sp_scaled_total := s.sp_scaled_total + a / s.sp_scale } : State)
      ({ ftoken_balance := u.ftoken_balance - a,
         sp_scaled := u.sp_scaled + a / s.sp_scale,
         sp_index_snap := s.sp_index_sui_scaled } : SPUser) a =
      ({ s with sp_scaled_total := s.sp_scaled_total + a / s.sp_scale - a / s.sp_scale },
       { ftoken_balance := u.ftoken_balance - a + a,
         sp_scaled := u.sp_scaled + a / s.sp_scale - a / s.sp_scale,
         sp_index_snap := s.sp_index_sui_scaled },
       Except.ok ()) := by
    unfold sp_withdraw settle_user
    rw [if_neg (not_le.mpr ha), if_neg havail, if_neg hsne]
  rw [hdep]
  refine ⟨rfl, ?_, ?_, ?_⟩
  · rw [hwd]
  · rw [hwd]
    show u.ftoken_balance - a + a = u.ftoken_balance
    ring
  · rw [hwd]
    show s.sp_scaled_total + a / s.sp_scale - a / s.sp_scale = s.sp_scaled_total
    ring

/-- C8 (witness): a user with free balance 5 deposits and withdraws 3. -/
theorem deposit_withdraw_roundtrip_witness :
    (sp_deposit initState { ftoken_balance := 5, sp_scaled := 0, sp_index_snap := 0 } 3).2.2 =
      Except.ok () ∧
    (sp_withdraw
      (sp_deposit initState { ftoken_balance := 5, sp_scaled := 0, sp_index_snap := 0 } 3).1
      (sp_deposit initState
        { ftoken_balance := 5, sp_scaled := 0, sp_index_snap := 0 } 3).2.1 3).2.2 =
      Except.ok () ∧
    (sp_withdraw
      (sp_deposit initState { ftoken_balance := 5, sp_scaled := 0, sp_index_snap := 0 } 3).1
      (sp_deposit initState
        { ftoken_balance := 5, sp_scaled := 0, sp_index_snap := 0 } 3).2.1 3).2.1.ftoken_balance =
      ({ ftoken_balance := 5, sp_scaled := 0, sp_index_snap := 0 } : SPUser).ftoken_balance ∧
    (sp_withdraw
      (sp_deposit initState { ftoken_balance := 5, sp_scaled := 0, sp_index_snap := 0 } 3).1
      (sp_deposit initState
        { ftoken_balance := 5, sp_scaled := 0, sp_index_snap := 0 } 3).2.1 3).1.sp_scaled_total =
      initState.sp_scaled_total :=
  deposit_withdraw_roundtrip initState
    { ftoken_balance := 5, sp_scaled := 0, sp_index_snap := 0 } 3
    (by norm_num [initState]) (by norm_num) (by norm_num) (by norm_num)

/-! ### C4 -/

/-- C4 (amended): when the requested burn exceeds `EPS` (not merely 0), the
executed cap `min(requested_burn, cap * pool_total)` exceeds `EPS`, the scaled
total exceeds `EPS`, and the requested payout is nonnegative, the Ledger's
burn-and-index primitive burns exactly the capped amount, scales the payout
proportionally, adds `executed_payout / scaled_total` to the index, adds
`executed_payout` to the obligation, multiplies the scale factor by
`1 - executed_burn / pool_total_pre`, and returns values that are nonnegative
and bounded by the requested ones. -/
theorem controller_rebalance_spec (s : State) (f_burn payout_sui : ℚ)
    (h1 : EPS < f_burn) (h2 : EPS < s.sp_scaled_total)
    (h3 : EPS < min f_burn (SP_MAX_BURN_FRAC_CALL * sp_total_f s))
    (h4 : 0 ≤ payout_sui) :
    sp_controller_rebalance s f_burn payout_sui =
      ({ s with
          sp_index_sui_scaled := s.sp_index_sui_scaled +
            payout_sui / f_burn * min f_burn (SP_MAX_BURN_FRAC_CALL * sp_total_f s) /
              s.sp_scaled_total,
          sp_obligation_sui := s.sp_obligation_sui +
            payout_sui / f_burn * min f_burn (SP_MAX_BURN_FRAC_CALL * sp_total_f s),
          sp_scale := s.sp_scale *
            (1 - min f_burn (SP_MAX_BURN_FRAC_CALL * sp_total_f s) / sp_total_f s) },
       min f_burn (SP_MAX_BURN_FRAC_CALL * sp_total_f s),
       payout_sui / f_burn * min f_burn (SP_MAX_BURN_FRAC_CALL * sp_total_f s)) ∧
    0 ≤ min f_burn (SP_MAX_BURN_FRAC_CALL * sp_total_f s) ∧
    min f_burn (SP_MAX_BURN_FRAC_CALL * sp_total_f s) ≤ f_burn ∧
    0 ≤ payout_sui / f_burn * min f_burn (SP_MAX_BURN_FRAC_CALL * sp_total_f s) ∧
    payout_sui / f_burn * min f_burn (SP_MAX_BURN_FRAC_CALL * sp_total_f s) ≤ payout_sui := by
  have hfb0 : (0 : ℚ) < f_burn := lt_trans EPS_pos h1
  have hfbne : f_burn ≠ 0 := ne_of_gt hfb0
  have hcap : EPS < SP_MAX_BURN_FRAC_CALL * sp_total_f s :=
    lt_of_lt_of_le h3 (min_le_right _ _)
  have hcap2 : EPS < 50 / 100 * sp_total_f s := hcap
  have hftp : (0 : ℚ) < sp_total_f s := by
    linarith [EPS_pos]
  have hB0 : (0 : ℚ) < min f_burn (SP_MAX_BURN_FRAC_CALL * sp_total_f s) :=
    lt_trans EPS_pos h3
  have hBle : min f_burn (SP_MAX_BURN_FRAC_CALL * sp_total_f s) ≤ f_burn := min_le_left _ _
  have hfrac : min f_burn (SP_MAX_BURN_FRAC_CALL * sp_total_f s) / sp_total_f s ≤
      SP_MAX_BURN_FRAC_CALL := by
    rw [div_le_iff₀ hftp]
    exact min_le_right _ _
  have hsm1 : SP_MAX_BURN_FRAC_CALL ≤ 1 := by norm_num [SP_MAX_BURN_FRAC_CALL]
  have hmax : max 0 (1 - min f_burn (SP_MAX_BURN_FRAC_CALL * sp_total_f s) / sp_total_f s) =
      1 - min f_burn (SP_MAX_BURN_FRAC_CALL * sp_total_f s) / sp_total_f s := by
    rw [max_eq_right]
    linarith [hfrac, hsm1]
  have hg1 : ¬ (sp_total_f s ≤ EPS ∨ f_burn ≤ EPS) := by
    push_neg
    constructor
    · linarith [EPS_pos]
    · exact h1
  have hP0 : 0 ≤ payout_sui / f_burn * min f_burn (SP_MAX_BURN_FRAC_CALL * sp_total_f s) :=
    mul_nonneg (div_nonneg h4 hfb0.le) hB0.le
  have hPle : payout_sui / f_burn * min f_burn (SP_MAX_BURN_FRAC_CALL * sp_total_f s) ≤
      payout_sui := by
    calc payout_sui / f_burn * min f_burn (SP_MAX_BURN_FRAC_CALL * sp_total_f s)
        ≤ payout_sui / f_burn * f_burn :=
          mul_le_mul_of_nonneg_left hBle (div_nonneg h4 hfb0.le)
      _ = payout_sui := div_mul_cancel₀ _ hfbne
  refine ⟨?_, hB0.le, hBle, hP0, hPle⟩
  unfold sp_controller_rebalance
  rw [if_neg hg1, if_neg (not_le.mpr h3), if_neg (not_le.mpr h2)]
  simp only [hmax]

/-- C4 (counterexample to the claim as stated): a positive requested burn that
is below `EPS`, against a non-empty pool, is executed as `(0, 0)` with no state
change, although `min(requested_burn, cap * pool_total)` is nonzero. -/
theorem controller_rebalance_cex :
    sp_controller_rebalance { initState with sp_scaled_total := 1 } (EPS / 2) 1 =
      ({ initState with sp_scaled_total := 1 }, 0, 0) ∧
    min (EPS / 2)
      (SP_MAX_BURN_FRAC_CALL * sp_total_f { initState with sp_scaled_total := 1 }) ≠ 0 := by
  constructor
  · unfold sp_controller_rebalance
    rw [if_pos]
    right
    norm_num [EPS]
  · norm_num [sp_total_f, initState, SP_MAX_BURN_FRAC_CALL, EPS]

/-- C4 (witness): pool total 2, requested burn 3 capped to 1, payout 6 scaled
to 2. -/
theorem controller_rebalance_spec_witness :
    sp_controller_rebalance { initState with sp_scaled_total := 2 } 3 6 =
      ({ { initState with sp_scaled_total := 2 } with
          sp_index_sui_scaled :=
            ({ initState with sp_scaled_total := 2 } : State).sp_index_sui_scaled +
            6 / 3 * min 3 (SP_MAX_BURN_FRAC_CALL *
              sp_total_f { initState with sp_scaled_total := 2 }) /
              ({ initState with sp_scaled_total := 2 } : State).sp_scaled_total,
          sp_obligation_sui :=
            ({ initState with sp_scaled_total := 2 } : State).sp_obligation_sui +
            6 / 3 * min 3 (SP_MAX_BURN_FRAC_CALL *
              sp_total_f { initState with sp_scaled_total := 2 }),
          sp_scale := ({ initState with sp_scaled_total := 2 } : State).sp_scale *
            (1 - min 3 (SP_MAX_BURN_FRAC_CALL *
              sp_total_f { initState with sp_scaled_total := 2 }) /
              sp_total_f { initState with sp_scaled_total := 2 }) },
       min 3 (SP_MAX_BURN_FRAC_CALL * sp_total_f { initState with sp_scaled_total := 2 }),
       6 / 3 * min 3 (SP_MAX_BURN_FRAC_CALL *
         sp_total_f { initState with sp_scaled_total := 2 })) ∧
    0 ≤ min 3 (SP_MAX_BURN_FRAC_CALL * sp_total_f { initState with sp_scaled_total := 2 }) ∧
    min 3 (SP_MAX_BURN_FRAC_CALL * sp_total_f { initState with sp_scaled_total := 2 }) ≤ 3 ∧
    0 ≤ 6 / 3 * min 3 (SP_MAX_BURN_FRAC_CALL *
      sp_total_f { initState with sp_scaled_total := 2 }) ∧
    6 / 3 * min 3 (SP_MAX_BURN_FRAC_CALL *
      sp_total_f { initState with sp_scaled_total := 2 }) ≤ 6 :=
  controller_rebalance_spec { initState with sp_scaled_total := 2 } 3 6
    (by norm_num [EPS]) (by norm_num [initState, EPS])
    (by norm_num [initState, sp_total_f, SP_MAX_BURN_FRAC_CALL, EPS]) (by norm_num)

/-! ### C5 -/

/-- C5 (amended): with `target_cr > 0`, `rebalance_to_target` raises the
oracle-not-set error (not a `(0,0)` no-op) when the oracle price is unset
(`p_sui ≤ EPS`), mutating nothing; when the price is set (and `Pf > 0`) it
returns `(0,0)` and mutates no state whenever the outstanding liability supply
is ≈0, the computed burn need is ≈0, or the collateral ratio is already at or
above the target. -/
theorem rebalance_noop_cases (s : State) (t : ℚ) (ht : 0 < t) :
    (s.p_sui ≤ EPS →
      protocol_rebalance_L3_to_target s t = (s, Except.error Err.oracleNotSet)) ∧
    (EPS < s.p_sui → 0 < s.Pf →
      (s.Nf ≤ EPS ∨
       max 0 (s.Nf - reserve_net_sui s * s.p_sui / (t * s.Pf)) ≤ EPS ∨
       t ≤ collateralRatio s) →
      protocol_rebalance_L3_to_target s t = (s, Except.ok (0, 0))) := by
  constructor
  · intro hp
    unfold protocol_rebalance_L3_to_target
    rw [if_pos hp]
  · intro hp hPf hcase
    have htp : (0 : ℚ) < t * s.Pf := mul_pos ht hPf
    unfold protocol_rebalance_L3_to_target
    rw [if_neg (not_le.mpr hp)]
    by_cases hNf : s.Nf ≤ EPS
    · rw [if_pos hNf]
    · rw [if_neg hNf]
      have hneed : max 0 (s.Nf - reserve_net_sui s * s.p_sui / (t * s.Pf)) ≤ EPS := by
        rcases hcase with h | h | h
        · exact absurd h hNf
        · exact h
        · have hdenpos : (0 : ℚ) < max EPS (s.Nf * s.Pf) := lt_max_of_lt_left EPS_pos
          have h1 : t * max EPS (s.Nf * s.Pf) ≤ reserve_net_sui s * s.p_sui := by
            unfold collateralRatio reserve_net_usd at h
            rw [le_div_iff₀ hdenpos] at h
            exact h
          have h2 : s.Nf * s.Pf ≤ max EPS (s.Nf * s.Pf) := le_max_right _ _
          have h3 : t * (s.Nf * s.Pf) ≤ reserve_net_sui s * s.p_sui := by
            nlinarith
          have h4 : s.Nf ≤ reserve_net_sui s * s.p_sui / (t * s.Pf) := by
            rw [le_div_iff₀ htp]
            nlinarith
          have h5 : max 0 (s.Nf - reserve_net_sui s * s.p_sui / (t * s.Pf)) = 0 := by
            rw [max_eq_left]
            linarith
          rw [h5]
          exact EPS_pos.le
      have hcomp : compute_f_burn_needed_for_target s t =
          Except.ok (max 0 (s.Nf - reserve_net_sui s * s.p_sui / (t * s.Pf))) := by
        unfold compute_f_burn_needed_for_target
        rw [if_neg (not_le.mpr ht), if_neg (ne_of_gt htp)]
      simp only [hcomp]
      rw [if_pos hneed]

/-- C5 (counterexample to the claim as stated): with the oracle price unset the
code raises an error; it does not return the `(0,0)` no-op the claim asserts. -/
theorem rebalance_cex :
    protocol_rebalance_L3_to_target initState (1306 / 1000) =
      (initState, Except.error Err.oracleNotSet) ∧
    (Except.error Err.oracleNotSet : Except Err (ℚ × ℚ)) ≠ Except.ok (0, 0) := by
  constructor
  · unfold protocol_rebalance_L3_to_target
    rw [if_pos]
    norm_num [initState, EPS]
  · intro h
    exact Except.noConfusion h

/-- C5 (witness): the error case at the fresh state, and the CR-already-met
no-op at a healthy state. -/
theorem rebalance_noop_cases_witness :
    protocol_rebalance_L3_to_target initState 1 =
      (initState, Except.error Err.oracleNotSet) ∧
    protocol_rebalance_L3_to_target
      { initState with p_sui := 2, reserve_sui := 100, Nf := 100 } 1 =
      ({ initState with p_sui := 2, reserve_sui := 100, Nf := 100 }, Except.ok (0, 0)) :=
  ⟨(rebalance_noop_cases initState 1 (by norm_num)).1 (by norm_num [initState, EPS]),
   (rebalance_noop_cases { initState with p_sui := 2, reserve_sui := 100, Nf := 100 } 1
      (by norm_num)).2
     (by norm_num [initState, EPS]) (by norm_num [initState, PF_FIXED])
     (Or.inr (Or.inr (by
       norm_num [initState, collateralRatio, reserve_net_usd, reserve_net_sui, EPS,
         PF_FIXED]))) ⟩

/-! ### C3 -/

/-- A payment callback that always reports failure. -/
def cbFail : ℚ → State → State × Except Err Unit :=
  fun _ s => (s, Except.error Err.insufficientClaimReserve)

/-- C3 (divergence witness): `sp_claim` with a failing payment callback leaves
`sp_obligation_sui` unchanged and propagates the failure, but it has already
advanced the user's `sp_index_snap` to the current index (here from 0 to 1),
erasing the accrued credit — the ledger is mutated, contrary to the claim. -/
theorem claim_failed_callback_mutates_snapshot :
    sp_claim cbFail { initState with sp_index_sui_scaled := 1 }
      { ftoken_balance := 0, sp_scaled := 1, sp_index_snap := 0 } =
      ({ initState with sp_index_sui_scaled := 1 },
       { ftoken_balance := 0, sp_scaled := 1, sp_index_snap := 1 },
       Except.error Err.insufficientClaimReserve) ∧
    ({ ftoken_balance := 0, sp_scaled := 1, sp_index_snap := 1 } : SPUser).sp_index_snap ≠
      ({ ftoken_balance := 0, sp_scaled := 1, sp_index_snap := 0 } : SPUser).sp_index_snap := by
  constructor
  · unfold sp_claim settle_user cbFail
    rw [if_neg]
    norm_num [initState, EPS]
  · norm_num

/-! ### C7: scale-factor / obligation-index monotonicity -/

theorem claim_pay_components (amt : ℚ) (s : State) :
    (sp_claim_pay_sui amt s).1.sp_scale = s.sp_scale ∧
    (sp_claim_pay_sui amt s).1.sp_index_sui_scaled = s.sp_index_sui_scaled ∧
    (sp_claim_pay_sui amt s).1.Pf = s.Pf := by
  unfold sp_claim_pay_sui
  split_ifs <;> exact ⟨rfl, rfl, rfl⟩

theorem controller_scale_mono (s : State) (f_burn payout : ℚ)
    (hscale : 0 < s.sp_scale) (hpay : 0 ≤ payout) (hfb : 0 < f_burn) :
    0 < (sp_controller_rebalance s f_burn payout).1.sp_scale ∧
    (sp_controller_rebalance s f_burn payout).1.sp_scale ≤ s.sp_scale ∧
    s.sp_index_sui_scaled ≤ (sp_controller_rebalance s f_burn payout).1.sp_index_sui_scaled ∧
    (sp_controller_rebalance s f_burn payout).1.Pf = s.Pf := by
  have hEP := EPS_pos
  simp only [sp_controller_rebalance]
  split_ifs with hg1 hg2 hg3
  · exact ⟨hscale, le_rfl, le_rfl, rfl⟩
  · exact ⟨hscale, le_rfl, le_rfl, rfl⟩
  · exact ⟨hscale, le_rfl, le_rfl, rfl⟩
  · push_neg at hg1 hg2 hg3
    obtain ⟨hftp, _⟩ := hg1
    have hftp0 : (0 : ℚ) < sp_total_f s := lt_trans hEP hftp
    have hminpos : 0 < min f_burn (SP_MAX_BURN_FRAC_CALL * sp_total_f s) := lt_trans hEP hg2
    have hmin2 : min f_burn (SP_MAX_BURN_FRAC_CALL * sp_total_f s) ≤ 50 / 100 * sp_total_f s :=
      min_le_right _ _
    have hfrac_le : min f_burn (SP_MAX_BURN_FRAC_CALL * sp_total_f s) / sp_total_f s ≤
        50 / 100 := by
      rw [div_le_iff₀ hftp0]
      linarith
    have hfrac_lt1 : (0 : ℚ) <
        1 - min f_burn (SP_MAX_BURN_FRAC_CALL * sp_total_f s) / sp_total_f s := by
      linarith
    have hfrac_nn : 0 ≤ min f_burn (SP_MAX_BURN_FRAC_CALL * sp_total_f s) / sp_total_f s :=
      (div_pos hminpos hftp0).le
    refine ⟨?_, ?_, ?_, rfl⟩
    · exact mul_pos hscale (lt_of_lt_of_le hfrac_lt1 (le_max_right 0 _))
    · have hle1 : max 0 (1 - min f_burn (SP_MAX_BURN_FRAC_CALL * sp_total_f s) /
          sp_total_f s) ≤ 1 :=
        max_le (by norm_num) (by linarith)
      exact mul_le_of_le_one_right hscale.le hle1
    · have hst0 : (0 : ℚ) < s.sp_scaled_total := lt_trans hEP hg3
      have hdelta : 0 ≤ payout / f_burn * min f_burn (SP_MAX_BURN_FRAC_CALL * sp_total_f s) /
          s.sp_scaled_total :=
        div_nonneg (mul_nonneg (div_nonneg hpay hfb.le) hminpos.le) hst0.le
      linarith

theorem rebalance_scale_mono (s : State) (t : ℚ)
    (hscale : 0 < s.sp_scale) (hPf : 0 ≤ s.Pf) :
    0 < (protocol_rebalance_L3_to_target s t).1.sp_scale ∧
    (protocol_rebalance_L3_to_target s t).1.sp_scale ≤ s.sp_scale ∧
    s.sp_index_sui_scaled ≤ (protocol_rebalance_L3_to_target s t).1.sp_index_sui_scaled ∧
    (protocol_rebalance_L3_to_target s t).1.Pf = s.Pf := by
  have hEP := EPS_pos
  simp only [protocol_rebalance_L3_to_target]
  split_ifs with hg1 hg2
  · exact ⟨hscale, le_rfl, le_rfl, rfl⟩
  · exact ⟨hscale, le_rfl, le_rfl, rfl⟩
  · cases hc : compute_f_burn_needed_for_target s t with
    | error e => exact ⟨hscale, le_rfl, le_rfl, rfl⟩
    | ok need =>
      dsimp only
      split_ifs with hg3 hg4 hg5
      · exact ⟨hscale, le_rfl, le_rfl, rfl⟩
      · exact ⟨hscale, le_rfl, le_rfl, rfl⟩
      · push_neg at hg1 hg4
        have hfb0 : (0 : ℚ) <
            max 0 (min need (min (sp_quote_burn_cap s) s.Nf)) := lt_trans hEP hg4
        have hpay : 0 ≤ max 0 (min need (min (sp_quote_burn_cap s) s.Nf)) * s.Pf / s.p_sui :=
          div_nonneg (mul_nonneg (le_max_left 0 _) hPf) (le_of_lt (lt_trans hEP hg1))
        have hmono := controller_scale_mono s
          (max 0 (min need (min (sp_quote_burn_cap s) s.Nf)))
          (max 0 (min need (min (sp_quote_burn_cap s) s.Nf)) * s.Pf / s.p_sui)
          hscale hpay hfb0
        exact ⟨hmono.1, hmono.2.1, hmono.2.2.1, hmono.2.2.2⟩
      · push_neg at hg1 hg4
        have hfb0 : (0 : ℚ) <
            max 0 (min need (min (sp_quote_burn_cap s) s.Nf)) := lt_trans hEP hg4
        have hpay : 0 ≤ max 0 (min need (min (sp_quote_burn_cap s) s.Nf)) * s.Pf / s.p_sui :=
          div_nonneg (mul_nonneg (le_max_left 0 _) hPf) (le_of_lt (lt_trans hEP hg1))
        have hmono := controller_scale_mono s
          (max 0 (min need (min (sp_quote_burn_cap s) s.Nf)))
          (max 0 (min need (min (sp_quote_burn_cap s) s.Nf)) * s.Pf / s.p_sui)
          hscale hpay hfb0
        simp only [update_px_scale, update_px_index, update_px_Pf]
        exact ⟨hmono.1, hmono.2.1, hmono.2.2.1, hmono.2.2.2⟩

theorem harvest_scale_mono (s : State) (y : ℚ) :
    (sp_index_harvest s y).1.sp_scale = s.sp_scale ∧
    s.sp_index_sui_scaled ≤ (sp_index_harvest s y).1.sp_index_sui_scaled ∧
    (sp_index_harvest s y).1.Pf = s.Pf := by
  have hEP := EPS_pos
  simp only [sp_index_harvest]
  split_ifs with hg
  · exact ⟨rfl, le_rfl, rfl⟩
  · push_neg at hg
    obtain ⟨hy, hst⟩ := hg
    have hy2 : EPS < y := hy
    have hst0 : (0 : ℚ) < s.sp_scaled_total := lt_trans hEP hst
    have hb : y * HARVEST_BOUNTY_BPS / BPS = y * 100 / 10000 := rfl
    have hpool : 0 ≤ y - y * HARVEST_BOUNTY_BPS / BPS := by
      rw [hb]
      have : (0 : ℚ) < y := lt_trans hEP hy2
      nlinarith
    have hdelta : 0 ≤ (y - y * HARVEST_BOUNTY_BPS / BPS) / s.sp_scaled_total :=
      div_nonneg hpool hst0.le
    exact ⟨rfl, by dsimp only; linarith, rfl⟩

theorem stepOp_scale_mono (σ : Sys) (op : Op)
    (h1 : 0 < σ.core.sp_scale) (h2 : 0 ≤ σ.core.Pf) :
    (0 < (stepOp σ op).1.core.sp_scale ∧ 0 ≤ (stepOp σ op).1.core.Pf) ∧
    (stepOp σ op).1.core.sp_scale ≤ σ.core.sp_scale ∧
    σ.core.sp_index_sui_scaled ≤ (stepOp σ op).1.core.sp_index_sui_scaled := by
  cases op with
  | update p ts =>
    simp only [stepOp]
    unfold update_from_oracle
    split_ifs
    · exact ⟨⟨h1, h2⟩, le_rfl, le_rfl⟩
    · exact ⟨⟨h1, h2⟩, le_rfl, le_rfl⟩
    · simp only [update_px_scale, update_px_index, update_px_Pf]
      exact ⟨⟨h1, by norm_num [PF_FIXED]⟩, le_rfl, le_rfl⟩
  | mint d =>
    simp only [stepOp, mint_ftoken]
    split_ifs
    · exact ⟨⟨h1, h2⟩, le_rfl, le_rfl⟩
    · exact ⟨⟨h1, h2⟩, le_rfl, le_rfl⟩
    · simp only [update_px_scale, update_px_index, update_px_Pf]
      exact ⟨⟨h1, h2⟩, le_rfl, le_rfl⟩
  | redeem b =>
    simp only [stepOp, redeem_ftoken]
    split_ifs
    · exact ⟨⟨h1, h2⟩, le_rfl, le_rfl⟩
    · exact ⟨⟨h1, h2⟩, le_rfl, le_rfl⟩
    · exact ⟨⟨h1, h2⟩, le_rfl, le_rfl⟩
    · simp only [update_px_scale, update_px_index, update_px_Pf]
      exact ⟨⟨h1, h2⟩, le_rfl, le_rfl⟩
  | deposit i a =>
    simp only [stepOp]
    cases hu : σ.users[i]? with
    | none => exact ⟨⟨h1, h2⟩, le_rfl, le_rfl⟩
    | some u =>
      simp only [sp_deposit]
      split_ifs
      · exact ⟨⟨h1, h2⟩, le_rfl, le_rfl⟩
      · exact ⟨⟨h1, h2⟩, le_rfl, le_rfl⟩
      · exact ⟨⟨h1, h2⟩, le_rfl, le_rfl⟩
  | withdraw i a =>
    simp only [stepOp]
    cases hu : σ.users[i]? with
    | none => exact ⟨⟨h1, h2⟩, le_rfl, le_rfl⟩
    | some u =>
      simp only [sp_withdraw]
      split_ifs
      · exact ⟨⟨h1, h2⟩, le_rfl, le_rfl⟩
      · exact ⟨⟨h1, h2⟩, le_rfl, le_rfl⟩
      · exact ⟨⟨h1, h2⟩, le_rfl, le_rfl⟩
      · exact ⟨⟨h1, h2⟩, le_rfl, le_rfl⟩
  | claim i =>
    simp only [stepOp]
    cases hu : σ.users[i]? with
    | none => exact ⟨⟨h1, h2⟩, le_rfl, le_rfl⟩
    | some u =>
      simp only [sp_claim]
      split_ifs
      · exact ⟨⟨h1, h2⟩, le_rfl, le_rfl⟩
      · have hcomp := claim_pay_components
          (settle_user σ.core u).2 σ.core
        rcases hcb : sp_claim_pay_sui (settle_user σ.core u).2 σ.core with ⟨s1, r1⟩
        rw [hcb] at hcomp
        cases r1 with
        | error e =>
          simp only [hcb]
          exact ⟨⟨hcomp.1 ▸ h1, hcomp.2.2 ▸ h2⟩, le_of_eq hcomp.1, le_of_eq hcomp.2.1.symm⟩
        | ok v =>
          simp only [hcb]
          exact ⟨⟨hcomp.1 ▸ h1, hcomp.2.2 ▸ h2⟩, le_of_eq hcomp.1, le_of_eq hcomp.2.1.symm⟩
  | rebalance t =>
    simp only [stepOp]
    have h := rebalance_scale_mono σ.core t h1 h2
    exact ⟨⟨h.1, h.2.2.2 ▸ h2⟩, h.2.1, h.2.2.1⟩
  | harvest y =>
    simp only [stepOp]
    have h := harvest_scale_mono σ.core y
    exact ⟨⟨h.1 ▸ h1, h.2.2 ▸ h2⟩, le_of_eq h.1, h.2.1⟩

theorem runOps_scale_mono (l : List Op) (σ : Sys)
    (h1 : 0 < σ.core.sp_scale) (h2 : 0 ≤ σ.core.Pf) :
    (0 < (runOps σ l).core.sp_scale ∧ 0 ≤ (runOps σ l).core.Pf) ∧
    (runOps σ l).core.sp_scale ≤ σ.core.sp_scale ∧
    σ.core.sp_index_sui_scaled ≤ (runOps σ l).core.sp_index_sui_scaled := by
  induction l generalizing σ with
  | nil => exact ⟨⟨h1, h2⟩, le_rfl, le_rfl⟩
  | cons op rest ih =>
    have hstep := stepOp_scale_mono σ op h1 h2
    have hrest := ih (stepOp σ op).1 hstep.1.1 hstep.1.2
    refine ⟨hrest.1, le_trans hrest.2.1 hstep.2.1, le_trans hstep.2.2 hrest.2.2⟩

/-- C7: along every run of public operations from the fresh system (any
number of user records), the scale factor is monotonically non-increasing and
stays strictly positive, and the obligation index is monotonically
non-decreasing: any later point of the run (`l1` followed by `l2`) has
scale ≤ and index ≥ the earlier point's. -/
theorem scale_monotone_over_lifetime (k : ℕ) (l1 l2 : List Op) :
    (runOps (runOps (initSys k) l1) l2).core.sp_scale ≤
      (runOps (initSys k) l1).core.sp_scale ∧
    0 < (runOps (runOps (initSys k) l1) l2).core.sp_scale ∧
    (runOps (initSys k) l1).core.sp_index_sui_scaled ≤
      (runOps (runOps (initSys k) l1) l2).core.sp_index_sui_scaled := by
  have h0 : 0 < (initSys k).core.sp_scale ∧ 0 ≤ (initSys k).core.Pf := by
    constructor <;> norm_num [initSys, initState, PF_FIXED]
  have hmid := runOps_scale_mono l1 (initSys k) h0.1 h0.2
  have hend := runOps_scale_mono l2 (runOps (initSys k) l1) hmid.1.1 hmid.1.2
  exact ⟨hend.2.1, hend.1.1, hend.2.2⟩

/-! ### C1: solvency along every run -/

theorem mem_of_getElem? {l : List SPUser} {i : ℕ} {u : SPUser}
    (h : l[i]? = some u) : u ∈ l := by
  induction l generalizing i with
  | nil => simp at h
  | cons a rest ih =>
    cases i with
    | zero =>
      simp only [List.getElem?_cons_zero, Option.some.injEq] at h
      exact h ▸ List.mem_cons_self _ _
    | succ j =>
      simp only [List.getElem?_cons_succ] at h
      exact List.mem_cons_of_mem _ (ih h)

theorem balSum_replicate (k : ℕ) : balSum (List.replicate k initUser) = 0 := by
  induction k with
  | zero => rfl
  | succ n ih =>
    show initUser.ftoken_balance + balSum (List.replicate n initUser) = 0
    rw [ih]
    show (0 : ℚ) + 0 = 0
    norm_num

/-- Inductive invariant for solvency: reachable states owe nothing to the pool
(the pool can never be funded because `mint` does not credit any `SPUser`
record), the reserve is nonnegative, and the pool bookkeeping is still at its
initial values except that the scaled total is bounded by the (nonnegative)
free balances manufactured by epsilon-tolerance withdrawals. -/
def SolvInv (σ : Sys) : Prop :=
  0 ≤ σ.core.reserve_sui ∧
  σ.core.sp_obligation_sui = 0 ∧
  σ.core.sp_index_sui_scaled = 0 ∧
  σ.core.sp_scale = 1 ∧
  σ.core.sp_scaled_total + balSum σ.users ≤ 0 ∧
  ∀ u ∈ σ.users, 0 ≤ u.ftoken_balance ∧ u.sp_index_snap = 0

theorem update_solv (s : State) (p : ℚ) (ts : ℤ) :
    (update_from_oracle s p ts).1.reserve_sui = s.reserve_sui ∧
    (update_from_oracle s p ts).1.sp_obligation_sui = s.sp_obligation_sui ∧
    (update_from_oracle s p ts).1.sp_index_sui_scaled = s.sp_index_sui_scaled ∧
    (update_from_oracle s p ts).1.sp_scale = s.sp_scale ∧
    (update_from_oracle s p ts).1.sp_scaled_total = s.sp_scaled_total := by
  unfold update_from_oracle
  split_ifs
  · exact ⟨rfl, rfl, rfl, rfl, rfl⟩
  · exact ⟨rfl, rfl, rfl, rfl, rfl⟩
  · simp only [update_px_reserve, update_px_obligation, update_px_index, update_px_scale,
      update_px_scaled_total]
    exact ⟨trivial, trivial, trivial, trivial, trivial⟩

theorem mint_solv (s : State) (d : ℚ) (hres : 0 ≤ s.reserve_sui) :
    0 ≤ (mint_ftoken s d).1.reserve_sui ∧
    (mint_ftoken s d).1.sp_obligation_sui = s.sp_obligation_sui ∧
    (mint_ftoken s d).1.sp_index_sui_scaled = s.sp_index_sui_scaled ∧
    (mint_ftoken s d).1.sp_scale = s.sp_scale ∧
    (mint_ftoken s d).1.sp_scaled_total = s.sp_scaled_total := by
  simp only [mint_ftoken]
  split_ifs with hg1 hg2
  · exact ⟨hres, rfl, rfl, rfl, rfl⟩
  · push_neg at hg1
    exact ⟨by show 0 ≤ s.reserve_sui + d; linarith, rfl, rfl, rfl, rfl⟩
  · push_neg at hg1
    simp only [update_px_reserve, update_px_obligation, update_px_index, update_px_scale,
      update_px_scaled_total]
    exact ⟨by show 0 ≤ s.reserve_sui + d; linarith, trivial, trivial, trivial, trivial⟩

theorem redeem_solv (s : State) (b : ℚ) (hres : 0 ≤ s.reserve_sui)
    (hob : s.sp_obligation_sui = 0) :
    0 ≤ (redeem_ftoken s b).1.reserve_sui ∧
    (redeem_ftoken s b).1.sp_obligation_sui = s.sp_obligation_sui ∧
    (redeem_ftoken s b).1.sp_index_sui_scaled = s.sp_index_sui_scaled ∧
    (redeem_ftoken s b).1.sp_scale = s.sp_scale ∧
    (redeem_ftoken s b).1.sp_scaled_total = s.sp_scaled_total := by
  have hnet : reserve_net_sui s = s.reserve_sui := by
    unfold reserve_net_sui
    rw [hob, sub_zero, max_eq_right hres]
  simp only [redeem_ftoken]
  split_ifs with hg1 hg2 hg3
  · exact ⟨hres, rfl, rfl, rfl, rfl⟩
  · exact ⟨hres, rfl, rfl, rfl, rfl⟩
  · exact ⟨hres, rfl, rfl, rfl, rfl⟩
  · push_neg at hg3
    rw [hnet] at hg3
    simp only [update_px_reserve, update_px_obligation, update_px_index, update_px_scale,
      update_px_scaled_total]
    exact ⟨by show 0 ≤ s.reserve_sui - b * s.Pf / s.p_sui; linarith, trivial, trivial,
      trivial, trivial⟩

theorem rebalance_solv (s : State) (t : ℚ) (hsc : s.sp_scale = 1)
    (htot : s.sp_scaled_total ≤ 0) :
    (protocol_rebalance_L3_to_target s t).1 = s := by
  have hcap : sp_quote_burn_cap s ≤ 0 := by
    have h : sp_quote_burn_cap s = 50 / 100 * (s.sp_scaled_total * s.sp_scale) := rfl
    rw [h, hsc]
    linarith
  simp only [protocol_rebalance_L3_to_target]
  split_ifs with hg1 hg2
  · rfl
  · rfl
  · cases hc : compute_f_burn_needed_for_target s t with
    | error e => rfl
    | ok need =>
      dsimp only
      split_ifs with hg3 hg4 hg5
      · rfl
      · rfl
      · exfalso
        apply hg4
        have hle : min need (min (sp_quote_burn_cap s) s.Nf) ≤ 0 :=
          le_trans (min_le_right _ _) (le_trans (min_le_left _ _) hcap)
        rw [max_eq_left hle]
        exact EPS_pos.le
      · exfalso
        apply hg4
        have hle : min need (min (sp_quote_burn_cap s) s.Nf) ≤ 0 :=
          le_trans (min_le_right _ _) (le_trans (min_le_left _ _) hcap)
        rw [max_eq_left hle]
        exact EPS_pos.le

theorem harvest_solv (s : State) (y : ℚ) (htot : s.sp_scaled_total ≤ 0) :
    (sp_index_harvest s y).1 = s := by
  simp only [sp_index_harvest]
  rw [if_pos (Or.inr (le_trans htot EPS_pos.le))]

theorem stepOp_solv (σ : Sys) (op : Op) (h : SolvInv σ) : SolvInv (stepOp σ op).1 := by
  obtain ⟨h1, h2, h3, h4, h5, h6⟩ := h
  have hbal : 0 ≤ balSum σ.users := balSum_nonneg _ fun u hu => (h6 u hu).1
  have htot : σ.core.sp_scaled_total ≤ 0 := by linarith
  cases op with
  | update p ts =>
    have hc := update_solv σ.core p ts
    simp only [stepOp, SolvInv]
    exact ⟨by rw [hc.1]; exact h1, by rw [hc.2.1]; exact h2, by rw [hc.2.2.1]; exact h3,
      by rw [hc.2.2.2.1]; exact h4, by rw [hc.2.2.2.2]; linarith, h6⟩
  | mint d =>
    have hc := mint_solv σ.core d h1
    simp only [stepOp, SolvInv]
    exact ⟨hc.1, by rw [hc.2.1]; exact h2, by rw [hc.2.2.1]; exact h3,
      by rw [hc.2.2.2.1]; exact h4, by rw [hc.2.2.2.2]; linarith, h6⟩
  | redeem b =>
    have hc := redeem_solv σ.core b h1 h2
    simp only [stepOp, SolvInv]
    exact ⟨hc.1, by rw [hc.2.1]; exact h2, by rw [hc.2.2.1]; exact h3,
      by rw [hc.2.2.2.1]; exact h4, by rw [hc.2.2.2.2]; linarith, h6⟩
  | deposit i a =>
    simp only [stepOp]
    cases hu : σ.users[i]? with
    | none => exact ⟨h1, h2, h3, h4, h5, h6⟩
    | some u =>
      have hmem : u ∈ σ.users := mem_of_getElem? hu
      have hu6 := h6 u hmem
      simp only [sp_deposit, settle_user, SolvInv]
      split_ifs with hg1 hg2
      · refine ⟨h1, h2, h3, h4, ?_, ?_⟩
        · rw [balSum_set σ.users i u u hu]
          linarith
        · intro v hv
          rcases mem_of_mem_set hv with hv' | hv'
          · exact h6 v hv'
          · exact hv' ▸ hu6
      · exact absurd hg2 (by rw [h4]; norm_num)
      · push_neg at hg1
        obtain ⟨ha, hb⟩ := hg1
        refine ⟨h1, h2, h3, h4, ?_, ?_⟩
        · rw [balSum_set σ.users i u _ hu]
          show σ.core.sp_scaled_total + a / σ.core.sp_scale +
            (balSum σ.users - u.ftoken_balance + (u.ftoken_balance - a)) ≤ 0
          rw [h4, div_one]
          linarith
        · intro v hv
          rcases mem_of_mem_set hv with hv' | hv'
          · exact h6 v hv'
          · subst hv'
            exact ⟨by show 0 ≤ u.ftoken_balance - a; linarith,
              by show σ.core.sp_index_sui_scaled = 0; exact h3⟩
  | withdraw i a =>
    simp only [stepOp]
    cases hu : σ.users[i]? with
    | none => exact ⟨h1, h2, h3, h4, h5, h6⟩
    | some u =>
      have hmem : u ∈ σ.users := mem_of_getElem? hu
      have hu6 := h6 u hmem
      simp only [sp_withdraw, settle_user, SolvInv]
      split_ifs with hg1 hg2 hg3
      · refine ⟨h1, h2, h3, h4, ?_, ?_⟩
        · rw [balSum_set σ.users i u u hu]
          linarith
        · intro v hv
          rcases mem_of_mem_set hv with hv' | hv'
          · exact h6 v hv'
          · exact hv' ▸ hu6
      · refine ⟨h1, h2, h3, h4, ?_, ?_⟩
        · rw [balSum_set σ.users i u _ hu]
          show σ.core.sp_scaled_total +
            (balSum σ.users - u.ftoken_balance + u.ftoken_balance) ≤ 0
          linarith
        · intro v hv
          rcases mem_of_mem_set hv with hv' | hv'
          · exact h6 v hv'
          · subst hv'
            exact ⟨hu6.1, by show σ.core.sp_index_sui_scaled = 0; exact h3⟩
      · exact absurd hg3 (by rw [h4]; norm_num)
      · refine ⟨h1, h2, h3, h4, ?_, ?_⟩
        · rw [balSum_set σ.users i u _ hu]
          show σ.core.sp_scaled_total - a / σ.core.sp_scale +
            (balSum σ.users - u.ftoken_balance + (u.ftoken_balance + a)) ≤ 0
          rw [h4, div_one]
          linarith
        · intro v hv
          rcases mem_of_mem_set hv with hv' | hv'
          · exact h6 v hv'
          · subst hv'
            refine ⟨?_, by show σ.core.sp_index_sui_scaled = 0; exact h3⟩
            show 0 ≤ u.ftoken_balance + a
            push_neg at hg1
            linarith [hu6.1]
  | claim i =>
    simp only [stepOp]
    cases hu : σ.users[i]? with
    | none => exact ⟨h1, h2, h3, h4, h5, h6⟩
    | some u =>
      have hmem : u ∈ σ.users := mem_of_getElem? hu
      have hu6 := h6 u hmem
      simp only [sp_claim, settle_user, SolvInv]
      have howed : max 0 (u.sp_scaled * (σ.core.sp_index_sui_scaled - u.sp_index_snap)) ≤
          EPS := by
        rw [h3, hu6.2]
        simp [EPS_pos.le]
      rw [if_pos howed]
      refine ⟨h1, h2, h3, h4, ?_, ?_⟩
      · rw [balSum_set σ.users i u _ hu]
        linarith
      · intro v hv
        rcases mem_of_mem_set hv with hv' | hv'
        · exact h6 v hv'
        · subst hv'
          exact ⟨hu6.1, by show σ.core.sp_index_sui_scaled = 0; exact h3⟩
  | rebalance t =>
    have hno := rebalance_solv σ.core t h4 htot
    simp only [stepOp, SolvInv, hno]
    exact ⟨h1, h2, h3, h4, h5, h6⟩
  | harvest y =>
    have hno := harvest_solv σ.core y htot
    simp only [stepOp, SolvInv, hno]
    exact ⟨h1, h2, h3, h4, h5, h6⟩

theorem runOps_solv (l : List Op) (σ : Sys) (h : SolvInv σ) : SolvInv (runOps σ l) := by
  induction l generalizing σ with
  | nil => exact h
  | cons op rest ih => exact ih _ (stepOp_solv σ op h)

theorem initSys_solv (k : ℕ) : SolvInv (initSys k) := by
  refine ⟨le_rfl, rfl, rfl, rfl, ?_, ?_⟩
  · show (0 : ℚ) + balSum (List.replicate k initUser) ≤ 0
    rw [balSum_replicate]
    norm_num
  · intro u hu
    rw [List.eq_of_mem_replicate hu]
    exact ⟨le_rfl, rfl⟩

/-- C1: for every population of user records and every sequence of public
operations (mint, redeem, deposit, withdraw, claim, rebalance_to_target,
index_harvest — price updates included as well) started from the initial
state, `check_solvency` holds after the sequence; since the sequence is
arbitrary, it holds after every operation of every run. -/
theorem solvency_after_every_operation (k : ℕ) (ops : List Op) :
    check_solvency (runOps (initSys k) ops).core := by
  have h := runOps_solv ops (initSys k) (initSys_solv k)
  obtain ⟨h1, h2, _, _, _, _⟩ := h
  unfold check_solvency
  rw [h2]
  linarith [EPS_pos]

/-! ### C2: value conservation along precondition-respecting user runs -/

theorem update_px_Px_of_Nx_le (s : State) (h : s.Nx ≤ EPS) : (update_px s).Px = s.Px := by
  unfold update_px
  rw [if_pos h]

theorem claim_pay_cons (amt : ℚ) (s : State) :
    (sp_claim_pay_sui amt s).1.p_sui = s.p_sui ∧
    (sp_claim_pay_sui amt s).1.Nf = s.Nf ∧
    (sp_claim_pay_sui amt s).1.Nx = s.Nx ∧
    (sp_claim_pay_sui amt s).1.Px = s.Px := by
  unfold sp_claim_pay_sui
  split_ifs <;> exact ⟨rfl, rfl, rfl, rfl⟩

/-- Inductive invariant for value conservation from the initial state under the
five direct user operations: the oracle price stays 0, so no liability or
equity was ever issued and both sides of the conservation equation are 0. -/
def ConsInv (σ : Sys) : Prop :=
  σ.core.p_sui = 0 ∧ σ.core.Nf = 0 ∧ σ.core.Nx = 0 ∧ σ.core.Px = 0

theorem stepOk_cons (σ : Sys) (op : Op) (hop : isUserOp op = true)
    (h : ConsInv σ) (hok : (stepOp σ op).2 = true) : ConsInv (stepOp σ op).1 := by
  obtain ⟨hp, hNf, hNx, hPx⟩ := h
  cases op with
  | update p ts => simp [isUserOp] at hop
  | rebalance t => simp [isUserOp] at hop
  | harvest y => simp [isUserOp] at hop
  | mint d =>
    simp only [stepOp, mint_ftoken, ConsInv] at hok ⊢
    split_ifs at hok ⊢ with hg1 hg2
    · simp [isOkE] at hok
    · simp [isOkE] at hok
    · refine ⟨?_, ?_, ?_, ?_⟩
      · rw [update_px_p_sui]
        exact hp
      · rw [update_px_Nf]
        show σ.core.Nf + d * σ.core.p_sui / σ.core.Pf = 0
        rw [hp, hNf]
        simp
      · rw [update_px_Nx]
        exact hNx
      · rw [update_px_Px_of_Nx_le]
        · exact hPx
        · show σ.core.Nx ≤ EPS
          rw [hNx]
          exact EPS_pos.le
  | redeem b =>
    simp only [stepOp, redeem_ftoken, ConsInv] at hok ⊢
    split_ifs at hok ⊢ <;> simp [isOkE] at hok
  | deposit i a =>
    simp only [stepOp] at hok ⊢
    cases hu : σ.users[i]? with
    | none =>
      simp only [hu] at hok
      simp at hok
    | some u =>
      simp only [hu] at hok ⊢
      simp only [sp_deposit, settle_user, ConsInv] at hok ⊢
      split_ifs at hok ⊢
      · simp [isOkE] at hok
      · simp [isOkE] at hok
      · exact ⟨hp, hNf, hNx, hPx⟩
  | withdraw i a =>
    simp only [stepOp] at hok ⊢
    cases hu : σ.users[i]? with
    | none =>
      simp only [hu] at hok
      simp at hok
    | some u =>
      simp only [hu] at hok ⊢
      simp only [sp_withdraw, settle_user, ConsInv] at hok ⊢
      split_ifs at hok ⊢
      · simp [isOkE] at hok
      · simp [isOkE] at hok
      · simp [isOkE] at hok
      · exact ⟨hp, hNf, hNx, hPx⟩
  | claim i =>
    simp only [stepOp] at hok ⊢
    cases hu : σ.users[i]? with
    | none =>
      simp only [hu] at hok
      simp at hok
    | some u =>
      simp only [hu] at hok ⊢
      simp only [sp_claim, settle_user, ConsInv] at hok ⊢
      split_ifs at hok ⊢ with hg
      · exact ⟨hp, hNf, hNx, hPx⟩
      · have hc := claim_pay_cons
          (max 0 (u.sp_scaled * (σ.core.sp_index_sui_scaled - u.sp_index_snap))) σ.core
        rcases hcb : sp_claim_pay_sui
            (max 0 (u.sp_scaled * (σ.core.sp_index_sui_scaled - u.sp_index_snap))) σ.core
          with ⟨s1, r1⟩
        rw [hcb] at hc
        cases r1 with
        | error e =>
          rw [hcb] at hok
          simp [isOkE] at hok
        | ok v =>
          exact ⟨hc.1.trans hp, hc.2.1.trans hNf, hc.2.2.1.trans hNx, hc.2.2.2.trans hPx⟩

theorem runOk_cons (l : List Op) (σ σw : Sys) (hops : ∀ op ∈ l, isUserOp op = true)
    (h : ConsInv σ) (hrun : runOk σ l = some σw) : ConsInv σw := by
  induction l generalizing σ with
  | nil =>
    simp only [runOk, Option.some.injEq] at hrun
    exact hrun ▸ h
  | cons op rest ih =>
    simp only [runOk] at hrun
    by_cases hok : (stepOp σ op).2 = true
    · rw [if_pos hok] at hrun
      exact ih (stepOp σ op).1 (fun o ho => hops o (List.mem_cons_of_mem _ ho))
        (stepOk_cons σ op (hops op (List.mem_cons_self _ _)) h hok) hrun
    · rw [if_neg hok] at hrun
      exact absurd hrun (by simp)

/-- C2: every sequence of the direct user operations (mint, redeem, deposit,
withdraw, claim) started from the initial state in which no operation fails a
precondition keeps `check_value_conservation` within every nonnegative
tolerance after every operation (quantifying the theorem over all such
sequences covers every prefix of a run). -/
theorem value_conservation_user_runs (k : ℕ) (ops : List Op) (tol : ℚ) (σw : Sys)
    (htol : 0 ≤ tol) (hops : ∀ op ∈ ops, isUserOp op = true)
    (hrun : runOk (initSys k) ops = some σw) :
    check_invariant σw.core tol := by
  have h0 : ConsInv (initSys k) := ⟨rfl, rfl, rfl, rfl⟩
  have h := runOk_cons ops (initSys k) σw hops h0 hrun
  obtain ⟨hp, hNf, hNx, hPx⟩ := h
  unfold check_invariant reserve_usd
  rw [hp, hNf, hNx]
  simp only [mul_zero, zero_mul, add_zero, zero_add, sub_zero]
  simpa using htol

/-- C2 (witness): a single successful `mint 5` from the fresh system with one
user record, checked at tolerance 0. -/
theorem value_conservation_user_runs_witness :
    check_invariant (Sys.mk { initState with reserve_sui := 5 } [initUser]).core 0 :=
  value_conservation_user_runs 1 [Op.mint 5] 0
    (Sys.mk { initState with reserve_sui := 5 } [initUser])
    le_rfl
    (by intro op hop
        simp only [List.mem_singleton] at hop
        rw [hop]
        rfl)
    (by simp only [runOk, stepOp, mint_ftoken, isOkE, initSys, initState, update_px,
          List.replicate, PF_FIXED, EPS]
        norm_num)

end Walrus
